import Mathlib

/-!
Verification of the tokenizer and recursive-descent parser of
`src/personal/tokenizerCommented.py` and `src/personal/parserCommented.py`.

The Python code is embedded shallowly:

* Python strings become `List Char`; tokens and AST dictionaries become
  structures/inductives with the same fields.
* Each regex of the ordered `patterns` table becomes an explicit matcher
  returning the length of the match at the head of the input (Python's
  `pattern.match(characters, position)` anchored match), `none` when the
  rule does not match there.
* Python `int(...)` on the digit strings produced by the number rule is
  `natParse`; Python `float(...)` on the dotted literals produced by the
  number rule is modelled exactly, as the rational value of the decimal
  text (`decFloat`); the program never computes with the float afterwards.
* Exceptions become `Except` errors; the distinct Python exception kinds
  (the tokenizer's `Exception("Syntax error")`, a failed `assert`, an
  `IndexError` from `tokens[0]` on an empty list, and the parser's
  `Exception(f"Unexpected token ...")` carrying a tag and position) are
  distinct constructors.
* The recursions are guarded by a fuel parameter, used only to make the
  definitions total; the top-level wrappers supply fuel that is ample for
  every input (the Python loops always consume input).
-/

deriving instance DecidableEq for Except

/-- The lexical/grammar tags of the Python code, which uses the strings
"print", "number", "identifier", "+", "-", "*", "/", "(", ")",
"whitespace", "error". -/
inductive Tag where
  | print
  | number
  | identifier
  | plus
  | minus
  | star
  | slash
  | lparen
  | rparen
  | whitespace
  | error
deriving DecidableEq

/-- A Python value stored in a token's `value` field or a number node:
an `int`, a `float` (modelled as the exact rational value of the decimal
literal), a string (the matched text), or Python `None`. -/
inductive Value where
  | int (n : Int)
  | float (q : Rat)
  | str (s : List Char)
  | none
deriving DecidableEq

/-- A token dictionary `{"tag": ..., "position": ..., "value": ...}`;
the end marker has tag `None`, modelled as `Option.none`. -/
structure Token where
  tag : Option Tag
  position : Nat
  value : Value
deriving DecidableEq

/-- The characters of the keyword pattern `r"print"`. -/
def printChars : List Char := ['p', 'r', 'i', 'n', 't']

/-- Anchored match of `r"print"`: succeeds (with length 5) iff the input
starts with the five characters of `print`. -/
def matchPrint (cs : List Char) : Option Nat :=
  if printChars.isPrefixOf cs then some printChars.length else Option.none

/-- Anchored match of the number regex `r"\d*\.\d+|\d+\.\d*|\d+"`, with
Python's ordered greedy alternation: a digit run, an optional dot, and a
second digit run; at least one digit is required, on whichever side. -/
def matchNumber (cs : List Char) : Option Nat :=
  let d1 := cs.takeWhile Char.isDigit
  let rest := cs.drop d1.length
  if rest.head? = some '.' then
    let d2 := (rest.drop 1).takeWhile Char.isDigit
    if 0 < d2.length then some (d1.length + 1 + d2.length)
    else if 0 < d1.length then some (d1.length + 1)
    else Option.none
  else if 0 < d1.length then some d1.length else Option.none

/-- A character of the class `[a-zA-Z0-9_]` (identifier continuation). -/
def isIdentChar (c : Char) : Bool := c.isAlphanum || c = '_'

/-- Anchored match of the identifier regex `r"[a-zA-Z_][a-zA-Z0-9_]*"`. -/
def matchIdentifier (cs : List Char) : Option Nat :=
  match cs with
  | [] => Option.none
  | c :: _ =>
    if c.isAlpha || c = '_' then some (cs.takeWhile isIdentChar).length
    else Option.none

/-- Anchored match of a single-character pattern such as `r"\+"`. -/
def matchChar (c : Char) (cs : List Char) : Option Nat :=
  match cs with
  | [] => Option.none
  | c' :: _ => if c' = c then some 1 else Option.none

/-- An ASCII character of Python's `\s` class. -/
def isPySpace (c : Char) : Bool :=
  c = ' ' || c = '\t' || c = '\n' || c = '\r' || c = '\x0b' || c = '\x0c'

/-- Anchored match of the whitespace regex `r"\s+"`. -/
def matchWhitespace (cs : List Char) : Option Nat :=
  let w := cs.takeWhile isPySpace
  if 0 < w.length then some w.length else Option.none

/-- Anchored match of the catch-all regex `r"."`: any single character
except a newline (Python's `.` without DOTALL). -/
def matchError (cs : List Char) : Option Nat :=
  match cs with
  | [] => Option.none
  | c :: _ => if c = '\n' then Option.none else some 1

/-- The ordered pattern table of `tokenizerCommented.py` (`patterns`):
each entry pairs an anchored matcher with its tag, in source order. -/
def patterns : List ((List Char → Option Nat) × Tag) :=
  [(matchPrint, Tag.print),
   (matchNumber, Tag.number),
   (matchIdentifier, Tag.identifier),
   (matchChar '+', Tag.plus),
   (matchChar '-', Tag.minus),
   (matchChar '*', Tag.star),
   (matchChar '/', Tag.slash),
   (matchChar '(', Tag.lparen),
   (matchChar ')', Tag.rparen),
   (matchWhitespace, Tag.whitespace),
   (matchError, Tag.error)]

/-- The `for pattern, tag in patterns` loop: return the first rule that
matches at the head of the input, with the matched length and its tag. -/
def firstMatchAux : List ((List Char → Option Nat) × Tag) → List Char →
    Option (Nat × Tag)
  | [], _ => Option.none
  | (m, tg) :: ps, cs =>
    match m cs with
    | some n => some (n, tg)
    | Option.none => firstMatchAux ps cs

/-- The first matching rule of the full pattern table. -/
def firstMatch (cs : List Char) : Option (Nat × Tag) :=
  firstMatchAux patterns cs

/-- Python `int(...)` on a digit string: its decimal value. -/
def natParse (cs : List Char) : Nat :=
  cs.foldl (fun acc c => 10 * acc + (c.toNat - '0'.toNat)) 0

/-- Python `float(...)` on the decimal literals matched by the number rule
(one dot, digits around it), modelled as the exact rational value of the
text: the integer part plus the fraction part scaled down. -/
def decFloat (cs : List Char) : Rat :=
  let d1 := cs.takeWhile (fun c => !(c = '.'))
  let d2 := cs.drop (d1.length + 1)
  (natParse d1 : Rat) + (natParse d2 : Rat) / (10 : Rat) ^ d2.length

/-- The token `value` field: the matched text, except that a number
token's text is decoded at lex time — to a float when the text contains a
decimal point (`"." in token["value"]`), else to an int. -/
def tokenValue (tag : Tag) (text : List Char) : Value :=
  if tag = Tag.number then
    if '.' ∈ text then Value.float (decFloat text) else Value.int (natParse text)
  else Value.str text

/-- The distinct failure modes of `tokenize`: the explicit
`Exception("Syntax error")` raise, the `assert match` failing (no rule
matched), and fuel exhaustion (an artifact of the embedding only). -/
inductive LexError where
  | syntaxError
  | noMatch
  | outOfFuel
deriving DecidableEq

/-- The scanning loop of `tokenize`: at each position take the first
matching rule; raise on the error tag; decode and append the token unless
it is whitespace; continue past the match; append the end marker
`{"tag": None, "value": None, "position": len}` after the last
character.  The fuel argument only guards termination. -/
def tokenizeLoopF : Nat → List Char → Nat → Except LexError (List Token)
  | 0, _, _ => .error .outOfFuel
  | _ + 1, [], position => .ok [⟨Option.none, position, Value.none⟩]
  | f + 1, c :: cs, position =>
    match firstMatch (c :: cs) with
    | Option.none => .error .noMatch
    | some (n, tag) =>
      if tag = Tag.error then .error .syntaxError
      else
        match tokenizeLoopF f ((c :: cs).drop n) (position + n) with
        | .error e => .error e
        | .ok ts =>
          .ok (if tag = Tag.whitespace then ts
               else ⟨some tag, position, tokenValue tag ((c :: cs).take n)⟩ :: ts)

/-- `tokenize(characters)`: scan from position 0.  Every match consumes at
least one character, so `length + 1` fuel is ample. -/
def tokenize (cs : List Char) : Except LexError (List Token) :=
  tokenizeLoopF (cs.length + 1) cs 0

example :
    tokenize ['1', '+', '2'] =
      .ok [⟨some Tag.number, 0, Value.int 1⟩,
           ⟨some Tag.plus, 1, Value.str ['+']⟩,
           ⟨some Tag.number, 2, Value.int 2⟩,
           ⟨Option.none, 3, Value.none⟩] := by decide

example :
    tokenize ['1', ' ', '+', ' ', '2'] =
      .ok [⟨some Tag.number, 0, Value.int 1⟩,
           ⟨some Tag.plus, 2, Value.str ['+']⟩,
           ⟨some Tag.number, 4, Value.int 2⟩,
           ⟨Option.none, 5, Value.none⟩] := by decide

example : tokenize ['$', '1'] = .error .syntaxError := by decide

/-- The AST nodes built by `parserCommented.py`: number nodes
`{"tag": "number", "value": v}`, binary-operation nodes
`{"tag": op, "left": l, "right": r}` with op among `+ - * /`, and print
nodes `{"tag": "print", "value": ast}`. -/
inductive Ast where
  | number (value : Value)
  | binop (tag : Tag) (left right : Ast)
  | printStmt (value : Ast)
deriving DecidableEq

/-- The distinct failure modes of the parser: the explicit
`Exception(f"Unexpected token ...")` raise of `parse_factor`, which
carries the unexpected token's tag and position; a failed `assert`
(which carries neither); an `IndexError` from `tokens[0]` on an empty
list; and fuel exhaustion (an artifact of the embedding only). -/
inductive PError where
  | parseError (tag : Option Tag) (position : Nat)
  | assertionError
  | indexError
  | outOfFuel
deriving DecidableEq

mutual

/-- `parse_factor(tokens)`: a number token yields a number node; a `(`
token yields the parenthesized expression, with
`assert tokens[0]["tag"] == ")"` checking the closing parenthesis; any
other head token raises the tag-and-position-carrying error. -/
def parse_factorF : Nat → List Token → Except PError (Ast × List Token)
  | 0, _ => .error .outOfFuel
  | f + 1, tokens =>
    match tokens with
    | [] => .error .indexError
    | t :: rest =>
      if t.tag = some Tag.number then .ok (Ast.number t.value, rest)
      else if t.tag = some Tag.lparen then
        match parse_expressionF f rest with
        | .error e => .error e
        | .ok (ast, rest') =>
          match rest' with
          | [] => .error .indexError
          | u :: rest'' =>
            if u.tag = some Tag.rparen then .ok (ast, rest'')
            else .error .assertionError
      else .error (.parseError t.tag t.position)

/-- The `while tokens[0]["tag"] in ["*", "/"]` loop of `parse_term`:
fold further factors onto `node`, the previously built node becoming the
left child of each new binary node. -/
def parse_term_loopF : Nat → Ast → List Token → Except PError (Ast × List Token)
  | 0, _, _ => .error .outOfFuel
  | f + 1, node, tokens =>
    match tokens with
    | [] => .error .indexError
    | t :: rest =>
      match t.tag with
      | some tg =>
        if tg = Tag.star ∨ tg = Tag.slash then
          match parse_factorF f rest with
          | .error e => .error e
          | .ok (right, rest') => parse_term_loopF f (Ast.binop tg node right) rest'
        else .ok (node, t :: rest)
      | Option.none => .ok (node, t :: rest)

/-- `parse_term(tokens)`: one factor, then the `*`/`/` fold. -/
def parse_termF : Nat → List Token → Except PError (Ast × List Token)
  | 0, _ => .error .outOfFuel
  | f + 1, tokens =>
    match parse_factorF f tokens with
    | .error e => .error e
    | .ok (node, rest) => parse_term_loopF f node rest

/-- The `while tokens[0]["tag"] in ["+", "-"]` loop of
`parse_expression`: fold further terms onto `node`, the previously built
node becoming the left child of each new binary node. -/
def parse_expr_loopF : Nat → Ast → List Token → Except PError (Ast × List Token)
  | 0, _, _ => .error .outOfFuel
  | f + 1, node, tokens =>
    match tokens with
    | [] => .error .indexError
    | t :: rest =>
      match t.tag with
      | some tg =>
        if tg = Tag.plus ∨ tg = Tag.minus then
          match parse_termF f rest with
          | .error e => .error e
          | .ok (right, rest') => parse_expr_loopF f (Ast.binop tg node right) rest'
        else .ok (node, t :: rest)
      | Option.none => .ok (node, t :: rest)

/-- `parse_expression(tokens)`: one term, then the `+`/`-` fold. -/
def parse_expressionF : Nat → List Token → Except PError (Ast × List Token)
  | 0, _ => .error .outOfFuel
  | f + 1, tokens =>
    match parse_termF f tokens with
    | .error e => .error e
    | .ok (node, rest) => parse_expr_loopF f node rest

/-- `parse_statement(tokens)`: a leading `print` token wraps the
following expression in a print node; otherwise a bare expression. -/
def parse_statementF : Nat → List Token → Except PError (Ast × List Token)
  | 0, _ => .error .outOfFuel
  | f + 1, tokens =>
    match tokens with
    | [] => .error .indexError
    | t :: rest =>
      if t.tag = some Tag.print then
        match parse_expressionF f rest with
        | .error e => .error e
        | .ok (value_ast, rest') => .ok (Ast.printStmt value_ast, rest')
      else parse_expressionF f (t :: rest)

end

/-- Ample fuel for a token list: the call depth between two consumed
tokens is bounded by the (constant) height of the grammar. -/
def parseFuel (tokens : List Token) : Nat := 8 * tokens.length + 8

/-- `parse_factor` at ample fuel. -/
def parse_factor (tokens : List Token) : Except PError (Ast × List Token) :=
  parse_factorF (parseFuel tokens) tokens

/-- `parse_statement` at ample fuel. -/
def parse_statement (tokens : List Token) : Except PError (Ast × List Token) :=
  parse_statementF (parseFuel tokens) tokens

/-- `parse(tokens)`: run `parse_statement` and return only the AST,
discarding whatever tokens remain unconsumed. -/
def parse (tokens : List Token) : Except PError Ast :=
  match parse_statement tokens with
  | .error e => .error e
  | .ok (ast, _) => .ok ast

/-- The failure modes of the combined pipeline `parse(tokenize(s))`. -/
inductive PipeError where
  | lex (e : LexError)
  | par (e : PError)
deriving DecidableEq

/-- The composition `parse(tokenize(characters))` used by the tests and
the specification. -/
def parse_tokenize (cs : List Char) : Except PipeError Ast :=
  match tokenize cs with
  | .error e => .error (.lex e)
  | .ok ts =>
    match parse ts with
    | .error e => .error (.par e)
    | .ok ast => .ok ast

example :
    parse_tokenize ['1', '+', '2', '*', '4'] =
      .ok (Ast.binop Tag.plus (Ast.number (Value.int 1))
        (Ast.binop Tag.star (Ast.number (Value.int 2))
          (Ast.number (Value.int 4)))) := by decide

example :
    parse_tokenize ['1', '+', '(', '2', '+', '3', ')', '*', '4'] =
      .ok (Ast.binop Tag.plus (Ast.number (Value.int 1))
        (Ast.binop Tag.star
          (Ast.binop Tag.plus (Ast.number (Value.int 2))
            (Ast.number (Value.int 3)))
          (Ast.number (Value.int 4)))) := by decide

/-- C1: multiplication binds tighter than addition — `parse(tokenize("1+2*4"))`
is the tree `{+, left: Number(1), right: {*, left: Number(2), right: Number(4)}}`. -/
theorem claim_C1_precedence :
    parse_tokenize ['1', '+', '2', '*', '4'] =
      .ok (Ast.binop Tag.plus (Ast.number (Value.int 1))
        (Ast.binop Tag.star (Ast.number (Value.int 2))
          (Ast.number (Value.int 4)))) := by decide

/-- C2: same-precedence operators fold left-associatively:
`parse(tokenize("2*4/6"))` is `{/, left: {*, 2, 4}, right: 6}`, and in
both folding loops the previously built node always becomes the left
child of the new binary node. -/
theorem claim_C2_left_assoc :
    parse_tokenize ['2', '*', '4', '/', '6'] =
      .ok (Ast.binop Tag.slash
        (Ast.binop Tag.star (Ast.number (Value.int 2))
          (Ast.number (Value.int 4)))
        (Ast.number (Value.int 6))) ∧
    (∀ f node t rest tg right rest',
      t.tag = some tg → tg = Tag.star ∨ tg = Tag.slash →
      parse_factorF f rest = .ok (right, rest') →
      parse_term_loopF (f + 1) node (t :: rest) =
        parse_term_loopF f (Ast.binop tg node right) rest') ∧
    (∀ f node t rest tg right rest',
      t.tag = some tg → tg = Tag.plus ∨ tg = Tag.minus →
      parse_termF f rest = .ok (right, rest') →
      parse_expr_loopF (f + 1) node (t :: rest) =
        parse_expr_loopF f (Ast.binop tg node right) rest') := by
  refine ⟨by decide, ?_, ?_⟩
  · intro f node t rest tg right rest' htag hop hfac
    simp only [parse_term_loopF, htag]
    rw [if_pos hop, hfac]
  · intro f node t rest tg right rest' htag hop hterm
    simp only [parse_expr_loopF, htag]
    rw [if_pos hop, hterm]

/-- Witness for C2: the `*` step of `2*4` and the `+` step of `2+4`,
each folding the previous node into the left child. -/
theorem claim_C2_left_assoc_witness :
    parse_term_loopF 9 (Ast.number (Value.int 2))
        [⟨some Tag.star, 1, Value.str ['*']⟩,
         ⟨some Tag.number, 2, Value.int 4⟩,
         ⟨Option.none, 3, Value.none⟩] =
      parse_term_loopF 8
        (Ast.binop Tag.star (Ast.number (Value.int 2))
          (Ast.number (Value.int 4)))
        [⟨Option.none, 3, Value.none⟩] ∧
    parse_expr_loopF 9 (Ast.number (Value.int 2))
        [⟨some Tag.plus, 1, Value.str ['+']⟩,
         ⟨some Tag.number, 2, Value.int 4⟩,
         ⟨Option.none, 3, Value.none⟩] =
      parse_expr_loopF 8
        (Ast.binop Tag.plus (Ast.number (Value.int 2))
          (Ast.number (Value.int 4)))
        [⟨Option.none, 3, Value.none⟩] :=
  ⟨claim_C2_left_assoc.2.1 8 _ _ _ _ _ _ rfl (Or.inl rfl) (by decide),
   claim_C2_left_assoc.2.2 8 _ _ _ _ _ _ rfl (Or.inl rfl) (by decide)⟩

/-- C3: parentheses override precedence — `parse(tokenize("1+(2+3)*4"))`
is `{+, 1, {*, {+, 2, 3}, 4}}`, and `parse_factor` on a `(` head parses a
full expression and requires the next token to be `)`. -/
theorem claim_C3_parenthesization :
    parse_tokenize ['1', '+', '(', '2', '+', '3', ')', '*', '4'] =
      .ok (Ast.binop Tag.plus (Ast.number (Value.int 1))
        (Ast.binop Tag.star
          (Ast.binop Tag.plus (Ast.number (Value.int 2))
            (Ast.number (Value.int 3)))
          (Ast.number (Value.int 4)))) ∧
    (∀ f p v rest a u rest',
      parse_expressionF f rest = .ok (a, u :: rest') →
      u.tag = some Tag.rparen →
      parse_factorF (f + 1) (⟨some Tag.lparen, p, v⟩ :: rest) = .ok (a, rest')) := by
  refine ⟨by decide, ?_⟩
  intro f p v rest a u rest' hexp hrp
  simp [parse_factorF, hexp, hrp]

/-- Witness for C3: a parenthesized `5` whose closing parenthesis is
consumed. -/
theorem claim_C3_parenthesization_witness :
    parse_factorF 9
        [⟨some Tag.lparen, 0, Value.str ['(']⟩,
         ⟨some Tag.number, 1, Value.int 5⟩,
         ⟨some Tag.rparen, 2, Value.str [')']⟩,
         ⟨Option.none, 3, Value.none⟩] =
      .ok (Ast.number (Value.int 5), [⟨Option.none, 3, Value.none⟩]) :=
  claim_C3_parenthesization.2 8 0 (Value.str ['('])
    [⟨some Tag.number, 1, Value.int 5⟩,
     ⟨some Tag.rparen, 2, Value.str [')']⟩,
     ⟨Option.none, 3, Value.none⟩]
    (Ast.number (Value.int 5)) ⟨some Tag.rparen, 2, Value.str [')']⟩
    [⟨Option.none, 3, Value.none⟩] (by decide) rfl

/-- C6 counterexample: on the tokens of `"(1"` the missing closing
parenthesis makes the parse fail with a bare assertion failure, which
carries neither a tag nor a position — not with the
tag-and-position-carrying parse error the claim asserts for every parse
failure. -/
theorem claim_C6_counterexample :
    parse_tokenize ['(', '1'] = .error (.par .assertionError) := by decide

/-- C6 (amended): `parse_factor` on a head token that is neither a
number nor `(` raises the error carrying the unexpected token's tag and
its source position; a missing `)` after a parenthesized expression
instead fails by assertion, carrying neither. -/
theorem claim_C6_parse_errors :
    (∀ t rest, t.tag ≠ some Tag.number → t.tag ≠ some Tag.lparen →
      parse_factor (t :: rest) = .error (.parseError t.tag t.position)) ∧
    (∀ f p v rest a u rest',
      parse_expressionF f rest = .ok (a, u :: rest') →
      u.tag ≠ some Tag.rparen →
      parse_factorF (f + 1) (⟨some Tag.lparen, p, v⟩ :: rest) =
        .error .assertionError) := by
  constructor
  · intro t rest h1 h2
    have hfuel : parseFuel (t :: rest) = 8 * rest.length + 15 + 1 := by
      simp [parseFuel]; ring
    rw [parse_factor, hfuel]
    simp only [parse_factorF, if_neg h1, if_neg h2]
  · intro f p v rest a u rest' hexp hrp
    simp [parse_factorF, hexp, hrp]

/-- Witness for C6: an identifier head yields the tag-and-position
error; a number in place of the closing parenthesis yields the bare
assertion failure. -/
theorem claim_C6_parse_errors_witness :
    parse_factor [⟨some Tag.identifier, 0, Value.str ['x']⟩] =
      .error (.parseError (some Tag.identifier) 0) ∧
    parse_factorF 9
        [⟨some Tag.lparen, 0, Value.str ['(']⟩,
         ⟨some Tag.number, 1, Value.int 1⟩,
         ⟨some Tag.number, 3, Value.int 2⟩,
         ⟨Option.none, 4, Value.none⟩] =
      .error .assertionError :=
  ⟨claim_C6_parse_errors.1 ⟨some Tag.identifier, 0, Value.str ['x']⟩ []
      (by decide) (by decide),
   claim_C6_parse_errors.2 8 0 (Value.str ['('])
      [⟨some Tag.number, 1, Value.int 1⟩,
       ⟨some Tag.number, 3, Value.int 2⟩,
       ⟨Option.none, 4, Value.none⟩]
      (Ast.number (Value.int 1)) ⟨some Tag.number, 3, Value.int 2⟩
      [⟨Option.none, 4, Value.none⟩] (by decide) (by decide)⟩

/-- C8: `parse` returns exactly the AST built by `parse_statement`,
whatever unconsumed tokens remain — no trailing-garbage check exists. -/
theorem claim_C8_trailing_tokens :
    ∀ tokens ast rest, parse_statement tokens = .ok (ast, rest) →
      parse tokens = .ok ast := by
  intro tokens ast rest h
  simp [parse, h]

/-- Witness for C8: the tokens of `"1 2"` — a valid statement followed
by a trailing number token — parse to `Number(1)` with the garbage
silently ignored. -/
theorem claim_C8_trailing_tokens_witness :
    parse [⟨some Tag.number, 0, Value.int 1⟩,
           ⟨some Tag.number, 2, Value.int 2⟩,
           ⟨Option.none, 3, Value.none⟩] =
      .ok (Ast.number (Value.int 1)) :=
  claim_C8_trailing_tokens
    [⟨some Tag.number, 0, Value.int 1⟩,
     ⟨some Tag.number, 2, Value.int 2⟩,
     ⟨Option.none, 3, Value.none⟩]
    (Ast.number (Value.int 1))
    [⟨some Tag.number, 2, Value.int 2⟩, ⟨Option.none, 3, Value.none⟩]
    (by decide)

/-- C10: the empty input tokenizes to just the end marker, and the
parser rejects that list with the tag-and-position error at the end
marker, so `parse(tokenize(""))` fails rather than returning an AST. -/
theorem claim_C10_empty_input :
    tokenize [] = .ok [⟨Option.none, 0, Value.none⟩] ∧
    parse [⟨Option.none, 0, Value.none⟩] =
      .error (.parseError Option.none 0) ∧
    parse_tokenize [] = .error (.par (.parseError Option.none 0)) := by
  decide

/-- Specification-side predicate for C5: scanning the input with the
ordered rule table, some reached position is matched first by the
catch-all error rule. -/
def hitsErrorF : Nat → List Char → Bool
  | 0, _ => false
  | _ + 1, [] => false
  | f + 1, c :: cs =>
    match firstMatch (c :: cs) with
    | Option.none => false
    | some (n, tag) =>
      if tag = Tag.error then true else hitsErrorF f ((c :: cs).drop n)

/-- C5: the scanner fails with the syntax error exactly when it reaches
a position whose first matching rule is the catch-all error rule; the
failure is immediate — whenever the error rule matches first at the
current position the whole scan fails, whatever follows, and no token
list is returned; in particular `tokenize("$1+2")` so fails. -/
theorem claim_C5_lex_failure :
    (∀ f cs pos, tokenizeLoopF f cs pos = .error .syntaxError ↔
      hitsErrorF f cs = true) ∧
    (∀ f pos c cs n, firstMatch (c :: cs) = some (n, Tag.error) →
      tokenizeLoopF (f + 1) (c :: cs) pos = .error .syntaxError) ∧
    tokenize ['$', '1', '+', '2'] = .error .syntaxError := by
  refine ⟨?_, ?_, by decide⟩
  · intro f
    induction f with
    | zero => intro cs pos; simp [tokenizeLoopF, hitsErrorF]
    | succ f ih =>
      intro cs pos
      match cs with
      | [] => simp [tokenizeLoopF, hitsErrorF]
      | c :: cs' =>
        simp only [tokenizeLoopF, hitsErrorF]
        match hfm : firstMatch (c :: cs') with
        | Option.none => simp
        | some (n, tag) =>
          simp only
          by_cases htag : tag = Tag.error
          · simp [htag]
          · rw [if_neg htag, if_neg htag]
            match hrec : tokenizeLoopF f ((c :: cs').drop n) (pos + n) with
            | .error e =>
              simp only
              rw [← ih ((c :: cs').drop n) (pos + n), hrec]
            | .ok ts => simp [← ih ((c :: cs').drop n) (pos + n), hrec]
  · intro f pos c cs n hfm
    simp [tokenizeLoopF, hfm]

/-- Witness for C5: the error rule matches first at `'$'`, and the scan
of `"$1"` fails at once. -/
theorem claim_C5_lex_failure_witness :
    tokenizeLoopF 3 ['$', '1'] 0 = .error .syntaxError :=
  claim_C5_lex_failure.2.1 2 0 '$' ['1'] 1 (by decide)

theorem matchPrint_le {cs : List Char} {n : Nat} (h : matchPrint cs = some n) :
    n ≤ cs.length := by
  simp only [matchPrint] at h
  split at h
  case isTrue hp =>
    cases h
    exact (List.isPrefixOf_iff_prefix.mp hp).length_le
  case isFalse => cases h

theorem matchNumber_le {cs : List Char} {n : Nat} (h : matchNumber cs = some n) :
    n ≤ cs.length := by
  have hd1 : (cs.takeWhile Char.isDigit).length ≤ cs.length :=
    (List.takeWhile_prefix _).length_le
  have hd2 : (((cs.drop (cs.takeWhile Char.isDigit).length).drop 1).takeWhile
        Char.isDigit).length
      ≤ ((cs.drop (cs.takeWhile Char.isDigit).length).drop 1).length :=
    (List.takeWhile_prefix _).length_le
  simp only [matchNumber] at h
  split at h
  case isTrue hhead =>
    have hpos : 0 < (cs.drop (cs.takeWhile Char.isDigit).length).length := by
      rcases hrest : cs.drop (cs.takeWhile Char.isDigit).length with _ | ⟨a, as⟩
      · rw [hrest] at hhead
        simp at hhead
      · simp [hrest]
    simp only [List.length_drop] at hd2 hpos
    split at h
    · cases h
      omega
    · split at h
      · cases h
        omega
      · cases h
  case isFalse =>
    split at h
    · cases h
      exact hd1
    · cases h

theorem matchIdentifier_le {cs : List Char} {n : Nat}
    (h : matchIdentifier cs = some n) : n ≤ cs.length := by
  match cs with
  | [] => simp [matchIdentifier] at h
  | c :: cs' =>
    simp only [matchIdentifier] at h
    split at h
    · cases h
      exact (List.takeWhile_prefix _).length_le
    · cases h

theorem matchChar_le {a : Char} {cs : List Char} {n : Nat}
    (h : matchChar a cs = some n) : n ≤ cs.length := by
  match cs with
  | [] => simp [matchChar] at h
  | c :: cs' =>
    simp only [matchChar] at h
    split at h
    · cases h
      simp
    · cases h

theorem matchWhitespace_le {cs : List Char} {n : Nat}
    (h : matchWhitespace cs = some n) : n ≤ cs.length := by
  simp only [matchWhitespace] at h
  split at h
  · cases h
    exact (List.takeWhile_prefix _).length_le
  · cases h

theorem matchError_le {cs : List Char} {n : Nat}
    (h : matchError cs = some n) : n ≤ cs.length := by
  match cs with
  | [] => simp [matchError] at h
  | c :: cs' =>
    simp only [matchError] at h
    split at h
    · cases h
    · cases h
      simp

theorem firstMatchAux_le {ps : List ((List Char → Option Nat) × Tag)}
    {cs : List Char} {n : Nat} {tag : Tag}
    (hall : ∀ mp ∈ ps, ∀ k, mp.1 cs = some k → k ≤ cs.length)
    (h : firstMatchAux ps cs = some (n, tag)) : n ≤ cs.length := by
  induction ps with
  | nil => simp [firstMatchAux] at h
  | cons p ps ih =>
    obtain ⟨m, tg⟩ := p
    simp only [firstMatchAux] at h
    rcases heq : m cs with _ | k
    · simp only [heq] at h
      exact ih (fun q hq => hall q (List.mem_cons_of_mem _ hq)) h
    · simp only [heq, Option.some.injEq, Prod.mk.injEq] at h
      obtain ⟨h1, h2⟩ := h
      exact h1 ▸ hall (m, tg) (by simp) k heq

/-- Any rule of the pattern table matches at most the whole input. -/
theorem firstMatch_le {cs : List Char} {n : Nat} {tag : Tag}
    (h : firstMatch cs = some (n, tag)) : n ≤ cs.length := by
  apply firstMatchAux_le _ h
  intro mp hmp k hk
  simp only [patterns, List.mem_cons, List.not_mem_nil, or_false] at hmp
  rcases hmp with rfl | rfl | rfl | rfl | rfl | rfl | rfl | rfl | rfl | rfl | rfl
  · exact matchPrint_le hk
  · exact matchNumber_le hk
  · exact matchIdentifier_le hk
  · exact matchChar_le hk
  · exact matchChar_le hk
  · exact matchChar_le hk
  · exact matchChar_le hk
  · exact matchChar_le hk
  · exact matchChar_le hk
  · exact matchWhitespace_le hk
  · exact matchError_le hk

/-- Loop invariant of the scanner: a successful scan from `pos` yields
tokens whose positions are at least `pos` and non-decreasing, ending in
exactly one end marker placed after the scanned characters, every other
token carrying a real tag. -/
theorem tokenizeLoopF_invariant :
    ∀ f cs pos ts, tokenizeLoopF f cs pos = .ok ts →
      (∀ t ∈ ts, pos ≤ t.position) ∧
      List.Chain' (fun a b => a.position ≤ b.position) ts ∧
      ∃ ts0, ts = ts0 ++ [⟨Option.none, pos + cs.length, Value.none⟩] ∧
        ∀ t ∈ ts0, t.tag ≠ Option.none := by
  intro f
  induction f with
  | zero => intro cs pos ts h; simp [tokenizeLoopF] at h
  | succ f ih =>
    intro cs pos ts h
    match cs with
    | [] =>
      simp only [tokenizeLoopF, Except.ok.injEq] at h
      subst h
      refine ⟨by simp, by simp, [], by simp, by simp⟩
    | c :: cs' =>
      simp only [tokenizeLoopF] at h
      rcases hfm : firstMatch (c :: cs') with _ | ⟨n, tag⟩
      · simp [hfm] at h
      · simp only [hfm] at h
        by_cases htag : tag = Tag.error
        · simp [if_pos htag] at h
        · rw [if_neg htag] at h
          rcases hrec : tokenizeLoopF f ((c :: cs').drop n) (pos + n) with e | ts'
          · simp [hrec] at h
          · simp only [hrec] at h
            rw [Except.ok.injEq] at h
            have hn : n ≤ (c :: cs').length := firstMatch_le hfm
            obtain ⟨hpos', hchain', ts0', hts0eq, hts0tag⟩ := ih _ _ _ hrec
            have hlen : pos + n + ((c :: cs').drop n).length
                = pos + (c :: cs').length := by
              simp only [List.length_drop]
              omega
            have hendtok :
                (⟨Option.none, pos + n + ((c :: cs').drop n).length,
                  Value.none⟩ : Token)
                = ⟨Option.none, pos + (c :: cs').length, Value.none⟩ := by
              rw [hlen]
            by_cases hws : tag = Tag.whitespace
            · rw [if_pos hws] at h
              subst h
              refine ⟨?_, hchain', ts0', ?_, hts0tag⟩
              · intro t ht
                exact le_trans (Nat.le_add_right pos n) (hpos' t ht)
              · rw [hts0eq, hendtok]
            · rw [if_neg hws] at h
              subst h
              refine ⟨?_, ?_, ⟨some tag, pos,
                  tokenValue tag ((c :: cs').take n)⟩ :: ts0', ?_, ?_⟩
              · intro t ht
                rcases List.mem_cons.mp ht with rfl | ht'
                · exact le_refl _
                · exact le_trans (Nat.le_add_right pos n) (hpos' t ht')
              · refine List.chain'_cons'.mpr ⟨?_, hchain'⟩
                intro y hy
                exact le_trans (Nat.le_add_right pos n)
                  (hpos' y (List.mem_of_mem_head? hy))
              · rw [hts0eq, hendtok, List.cons_append]
              · intro t ht
                rcases List.mem_cons.mp ht with rfl | ht'
                · simp
                · exact hts0tag t ht'

/-- C7: on every input where `tokenize` succeeds, token positions are in
non-decreasing order and the list ends with exactly one end-marker
token: its tag is the sentinel `None`, distinct from every grammar tag
carried by the other tokens, its value is absent, and its position is
the length of the input. -/
theorem claim_C7_token_stream_invariants :
    ∀ cs ts, tokenize cs = .ok ts →
      List.Chain' (fun a b => a.position ≤ b.position) ts ∧
      ∃ ts0, ts = ts0 ++ [⟨Option.none, cs.length, Value.none⟩] ∧
        ∀ t ∈ ts0, t.tag ≠ Option.none := by
  intro cs ts h
  obtain ⟨hpos, hchain, ts0, heq, htag⟩ := tokenizeLoopF_invariant _ _ _ _ h
  exact ⟨hchain, ts0, by simpa using heq, htag⟩

/-- Witness for C7: the token list of `"1 + 2"`. -/
theorem claim_C7_token_stream_invariants_witness :
    List.Chain' (fun a b => a.position ≤ b.position)
        ([⟨some Tag.number, 0, Value.int 1⟩,
          ⟨some Tag.plus, 2, Value.str ['+']⟩,
          ⟨some Tag.number, 4, Value.int 2⟩,
          ⟨Option.none, 5, Value.none⟩] : List Token) ∧
    ∃ ts0, ([⟨some Tag.number, 0, Value.int 1⟩,
             ⟨some Tag.plus, 2, Value.str ['+']⟩,
             ⟨some Tag.number, 4, Value.int 2⟩,
             ⟨Option.none, 5, Value.none⟩] : List Token)
        = ts0 ++ [⟨Option.none, ['1', ' ', '+', ' ', '2'].length, Value.none⟩] ∧
        ∀ t ∈ ts0, t.tag ≠ Option.none :=
  claim_C7_token_stream_invariants ['1', ' ', '+', ' ', '2']
    [⟨some Tag.number, 0, Value.int 1⟩,
     ⟨some Tag.plus, 2, Value.str ['+']⟩,
     ⟨some Tag.number, 4, Value.int 2⟩,
     ⟨Option.none, 5, Value.none⟩] (by decide)

theorem isDigit_ne {c x : Char} (h : c.isDigit = true) (hx : x.isDigit = false) :
    c ≠ x := by
  intro he
  rw [he, hx] at h
  cases h

/-- The `print` rule fails whenever the input does not start with `p`. -/
theorem matchPrint_ne_p {c : Char} {cs : List Char} (h : c ≠ 'p') :
    matchPrint (c :: cs) = Option.none := by
  simp [matchPrint, printChars, List.isPrefixOf, Ne.symm h]

/-- When the `print` rule fails and the number rule matches, the number
rule is the first match. -/
theorem firstMatch_number {cs : List Char} {k : Nat}
    (hp : matchPrint cs = Option.none) (hnum : matchNumber cs = some k) :
    firstMatch cs = some (k, Tag.number) := by
  simp [firstMatch, patterns, firstMatchAux, hp, hnum]

/-- One unfolding of the scanning loop at a position where a
non-error rule matches. -/
theorem tokenizeLoopF_step {f : Nat} {cs : List Char} {pos n : Nat} {tag : Tag}
    (hne : cs ≠ []) (hfm : firstMatch cs = some (n, tag))
    (htag : tag ≠ Tag.error) :
    tokenizeLoopF (f + 1) cs pos =
      match tokenizeLoopF f (cs.drop n) (pos + n) with
      | .error e => .error e
      | .ok ts =>
        .ok (if tag = Tag.whitespace then ts
             else ⟨some tag, pos, tokenValue tag (cs.take n)⟩ :: ts) := by
  obtain ⟨c, cs', rfl⟩ : ∃ c cs', cs = c :: cs' := by
    match cs, hne with
    | c :: cs', _ => exact ⟨c, cs', rfl⟩
  simp only [tokenizeLoopF, hfm]
  rw [if_neg htag]

/-- The scan of an exhausted input emits the end marker. -/
theorem tokenizeLoopF_nil' {f pos : Nat} (hf : f ≠ 0) :
    tokenizeLoopF f [] pos = .ok [⟨Option.none, pos, Value.none⟩] := by
  match f, hf with
  | g + 1, _ => rfl

/-- The number rule on a nonempty all-digit input matches it whole. -/
theorem matchNumber_digits {d : List Char} (hne : d ≠ [])
    (hd : ∀ c ∈ d, c.isDigit = true) : matchNumber d = some d.length := by
  have htw : d.takeWhile Char.isDigit = d := List.takeWhile_eq_self_iff.mpr hd
  have hlen : 0 < d.length := List.length_pos.mpr hne
  simp [matchNumber, htw, List.drop_length, hlen]

/-- The number rule on digits, a dot, and at least one more digit
matches the whole dotted literal (the `\d*\.\d+` alternative). -/
theorem matchNumber_dotted {d1 d2 : List Char}
    (h1 : ∀ c ∈ d1, c.isDigit = true) (h2 : ∀ c ∈ d2, c.isDigit = true)
    (hne : d2 ≠ []) :
    matchNumber (d1 ++ '.' :: d2) = some (d1 ++ '.' :: d2).length := by
  have hdotdig : ('.' : Char).isDigit = false := by decide
  have htw : (d1 ++ '.' :: d2).takeWhile Char.isDigit = d1 := by
    rw [List.takeWhile_append_of_pos h1]
    simp [List.takeWhile_cons, hdotdig]
  have hdrop : (d1 ++ '.' :: d2).drop d1.length = '.' :: d2 :=
    List.drop_left d1 ('.' :: d2)
  have hlen : 0 < d2.length := List.length_pos.mpr hne
  simp [matchNumber, htw, hdrop, List.takeWhile_eq_self_iff.mpr h2, hlen]
  omega

/-- The number rule on digits followed by a bare trailing dot matches
them whole (the `\d+\.\d*` alternative with empty fraction). -/
theorem matchNumber_traildot {d1 : List Char}
    (h1 : ∀ c ∈ d1, c.isDigit = true) (hne : d1 ≠ []) :
    matchNumber (d1 ++ ['.']) = some (d1 ++ ['.']).length := by
  have hdotdig : ('.' : Char).isDigit = false := by decide
  have htw : (d1 ++ ['.']).takeWhile Char.isDigit = d1 := by
    rw [List.takeWhile_append_of_pos h1]
    simp [List.takeWhile_cons, hdotdig]
  have hdrop : (d1 ++ ['.']).drop d1.length = ['.'] := List.drop_left d1 ['.']
  have hlen : 0 < d1.length := List.length_pos.mpr hne
  simp [matchNumber, htw, hdrop, hlen]

/-- `float()` on a digits-dot-digits literal is the integer part plus
the scaled-down fraction part. -/
theorem decFloat_dotted {d1 d2 : List Char}
    (h1 : ∀ c ∈ d1, c.isDigit = true) :
    decFloat (d1 ++ '.' :: d2) =
      (natParse d1 : Rat) + (natParse d2 : Rat) / (10 : Rat) ^ d2.length := by
  have hpred : ∀ a ∈ d1, (fun c => !(c = '.')) a = true := by
    intro a ha
    simp [isDigit_ne (h1 a ha) (show ('.' : Char).isDigit = false by decide)]
  have htw : (d1 ++ '.' :: d2).takeWhile (fun c => !(c = '.')) = d1 := by
    rw [List.takeWhile_append_of_pos hpred]
    simp [List.takeWhile_cons]
  have hdrop : (d1 ++ '.' :: d2).drop (d1.length + 1) = d2 := by
    have hsplit : d1 ++ '.' :: d2 = (d1 ++ ['.']) ++ d2 := by simp
    rw [hsplit, List.drop_left' (by simp)]
  simp only [decFloat, htw, hdrop]

/-- `float()` on a digits-then-dot literal is just the integer part. -/
theorem decFloat_traildot {d1 : List Char}
    (h1 : ∀ c ∈ d1, c.isDigit = true) :
    decFloat (d1 ++ ['.']) = (natParse d1 : Rat) := by
  have hpred : ∀ a ∈ d1, (fun c => !(c = '.')) a = true := by
    intro a ha
    simp [isDigit_ne (h1 a ha) (show ('.' : Char).isDigit = false by decide)]
  have htw : (d1 ++ ['.']).takeWhile (fun c => !(c = '.')) = d1 := by
    rw [List.takeWhile_append_of_pos hpred]
    simp [List.takeWhile_cons]
  have hdrop : (d1 ++ ['.']).drop (d1.length + 1) = [] := by
    apply List.drop_eq_nil_of_le
    simp
  simp [decFloat, htw, hdrop, natParse, List.foldl]

/-- A nonempty all-digit input tokenizes to one number token whose value
is the integer parse of the string, then the end marker. -/
theorem tokenize_digits {d : List Char} (hne : d ≠ [])
    (hd : ∀ c ∈ d, c.isDigit = true) :
    tokenize d = .ok [⟨some Tag.number, 0, Value.int (natParse d)⟩,
                      ⟨Option.none, d.length, Value.none⟩] := by
  have hdot : ('.' : Char) ∉ d := fun hm =>
    absurd (hd '.' hm) (by decide)
  have hfm : firstMatch d = some (d.length, Tag.number) := by
    obtain ⟨c, cs, rfl⟩ : ∃ c cs, d = c :: cs := by
      match d, hne with
      | c :: cs, _ => exact ⟨c, cs, rfl⟩
    exact firstMatch_number
      (matchPrint_ne_p (isDigit_ne (hd c (by simp))
        (show ('p' : Char).isDigit = false by decide)))
      (matchNumber_digits hne hd)
  simp only [tokenize]
  rw [tokenizeLoopF_step hne hfm (by decide), List.drop_length,
    tokenizeLoopF_nil' (by simp [hne])]
  simp [tokenValue, hdot]

/-- A digits-dot-digits input (with a nonempty fraction) tokenizes to
one number token whose value is the float parse of the text — the
integer part plus the scaled-down fraction — then the end marker. -/
theorem tokenize_dotted {d1 d2 : List Char}
    (h1 : ∀ c ∈ d1, c.isDigit = true) (h2 : ∀ c ∈ d2, c.isDigit = true)
    (hne : d2 ≠ []) :
    tokenize (d1 ++ '.' :: d2) =
      .ok [⟨some Tag.number, 0,
            Value.float ((natParse d1 : Rat)
              + (natParse d2 : Rat) / (10 : Rat) ^ d2.length)⟩,
           ⟨Option.none, (d1 ++ '.' :: d2).length, Value.none⟩] := by
  have hne' : d1 ++ '.' :: d2 ≠ [] := by simp
  have hp : matchPrint (d1 ++ '.' :: d2) = Option.none := by
    cases d1 with
    | nil =>
      rw [List.nil_append]
      exact matchPrint_ne_p (by decide)
    | cons a d1' =>
      rw [List.cons_append]
      exact matchPrint_ne_p (isDigit_ne (h1 a (by simp))
        (show ('p' : Char).isDigit = false by decide))
  have hfm := firstMatch_number hp (matchNumber_dotted h1 h2 hne)
  have htake : List.take (d1.length + (d2.length + 1)) (d1 ++ '.' :: d2)
      = d1 ++ '.' :: d2 := by
    apply List.take_of_length_le
    simp
  simp only [tokenize]
  rw [tokenizeLoopF_step hne' hfm (by decide), List.drop_length,
    tokenizeLoopF_nil' (by simp)]
  simp [tokenValue, decFloat_dotted h1, htake]

/-- A digits-then-dot input tokenizes to one number token whose value is
the float parse of the text — the integer part — then the end marker. -/
theorem tokenize_traildot {d1 : List Char}
    (h1 : ∀ c ∈ d1, c.isDigit = true) (hne : d1 ≠ []) :
    tokenize (d1 ++ ['.']) =
      .ok [⟨some Tag.number, 0, Value.float (natParse d1 : Rat)⟩,
           ⟨Option.none, d1.length + 1, Value.none⟩] := by
  have hne' : d1 ++ ['.'] ≠ [] := by simp
  have hp : matchPrint (d1 ++ ['.']) = Option.none := by
    cases d1 with
    | nil => exact absurd rfl hne
    | cons a d1' =>
      rw [List.cons_append]
      exact matchPrint_ne_p (isDigit_ne (h1 a (by simp))
        (show ('p' : Char).isDigit = false by decide))
  have hfm := firstMatch_number hp (matchNumber_traildot h1 hne)
  have htake : List.take (d1.length + 1) (d1 ++ ['.']) = d1 ++ ['.'] := by
    apply List.take_of_length_le
    simp
  simp only [tokenize]
  rw [tokenizeLoopF_step hne' hfm (by decide), List.drop_length,
    tokenizeLoopF_nil' (by simp)]
  simp [tokenValue, decFloat_traildot h1, htake]

/-- C4: numeric literals are decoded at lex time: an all-digit match
becomes the integer parse of its text; a match containing the decimal
point becomes the float parse of its text (integer part plus scaled
fraction, the float being modelled as the exact rational value); and the
number pattern accepts the forms `1`, `.11`, `11.` and `11.11`. -/
theorem claim_C4_number_decoding :
    (∀ d : List Char, d ≠ [] → (∀ c ∈ d, c.isDigit = true) →
      tokenize d = .ok [⟨some Tag.number, 0, Value.int (natParse d)⟩,
                        ⟨Option.none, d.length, Value.none⟩]) ∧
    (∀ d1 d2 : List Char, (∀ c ∈ d1, c.isDigit = true) →
      (∀ c ∈ d2, c.isDigit = true) → d2 ≠ [] →
      tokenize (d1 ++ '.' :: d2) =
        .ok [⟨some Tag.number, 0,
              Value.float ((natParse d1 : Rat)
                + (natParse d2 : Rat) / (10 : Rat) ^ d2.length)⟩,
             ⟨Option.none, (d1 ++ '.' :: d2).length, Value.none⟩]) ∧
    (∀ d1 : List Char, (∀ c ∈ d1, c.isDigit = true) → d1 ≠ [] →
      tokenize (d1 ++ ['.']) =
        .ok [⟨some Tag.number, 0, Value.float (natParse d1 : Rat)⟩,
             ⟨Option.none, d1.length + 1, Value.none⟩]) ∧
    tokenize ['1'] = .ok [⟨some Tag.number, 0, Value.int 1⟩,
                          ⟨Option.none, 1, Value.none⟩] ∧
    tokenize ['.', '1', '1'] =
      .ok [⟨some Tag.number, 0, Value.float (11 / 100)⟩,
           ⟨Option.none, 3, Value.none⟩] ∧
    tokenize ['1', '1', '.'] =
      .ok [⟨some Tag.number, 0, Value.float 11⟩,
           ⟨Option.none, 3, Value.none⟩] ∧
    tokenize ['1', '1', '.', '1', '1'] =
      .ok [⟨some Tag.number, 0, Value.float (1111 / 100)⟩,
           ⟨Option.none, 5, Value.none⟩] := by
  refine ⟨fun d hne hd => tokenize_digits hne hd,
    fun d1 d2 h1 h2 hne => tokenize_dotted h1 h2 hne,
    fun d1 h1 hne => tokenize_traildot h1 hne,
    by decide, ?_, ?_, ?_⟩
  · have h := @tokenize_dotted [] ['1', '1'] (by decide) (by decide) (by decide)
    have hv : ((natParse ([] : List Char) : Rat)
        + (natParse ['1', '1'] : Rat)
          / (10 : Rat) ^ (['1', '1'] : List Char).length) = 11 / 100 := by
      rw [show natParse ['1', '1'] = 11 from by decide,
        show natParse ([] : List Char) = 0 from rfl]
      norm_num
    rw [hv] at h
    simpa using h
  · have h := @tokenize_traildot ['1', '1'] (by decide) (by decide)
    have hv : ((natParse ['1', '1'] : Rat)) = 11 := by
      rw [show natParse ['1', '1'] = 11 from by decide]
      norm_num
    rw [hv] at h
    simpa using h
  · have h := @tokenize_dotted ['1', '1'] ['1', '1'] (by decide) (by decide)
      (by decide)
    have hv : ((natParse ['1', '1'] : Rat)
        + (natParse ['1', '1'] : Rat)
          / (10 : Rat) ^ (['1', '1'] : List Char).length) = 1111 / 100 := by
      rw [show natParse ['1', '1'] = 11 from by decide]
      norm_num
    rw [hv] at h
    simpa using h

/-- Witness for C4: the inputs `"7"`, `"1.5"` and `"2."`. -/
theorem claim_C4_number_decoding_witness :
    tokenize ['7'] = .ok [⟨some Tag.number, 0, Value.int (natParse ['7'])⟩,
                          ⟨Option.none, (['7'] : List Char).length, Value.none⟩] ∧
    tokenize (['1'] ++ '.' :: ['5']) =
      .ok [⟨some Tag.number, 0,
            Value.float ((natParse ['1'] : Rat)
              + (natParse ['5'] : Rat)
                / (10 : Rat) ^ (['5'] : List Char).length)⟩,
           ⟨Option.none, (['1'] ++ '.' :: ['5']).length, Value.none⟩] ∧
    tokenize (['2'] ++ ['.']) =
      .ok [⟨some Tag.number, 0, Value.float (natParse ['2'] : Rat)⟩,
           ⟨Option.none, (['2'] : List Char).length + 1, Value.none⟩] :=
  ⟨claim_C4_number_decoding.1 ['7'] (by decide) (by decide),
   claim_C4_number_decoding.2.1 ['1'] ['5'] (by decide) (by decide) (by decide),
   claim_C4_number_decoding.2.2.1 ['2'] (by decide) (by decide)⟩

theorem isAlpha_isDigit_false {c : Char} (h : c.isAlpha = true) :
    c.isDigit = false := by
  simp [Char.isAlpha, Char.isUpper, Char.isLower, Char.isDigit, Char.le_def,
    UInt32.le_def, BitVec.le_def] at *
  omega

theorem isAlpha_ne {c x : Char} (h : c.isAlpha = true) (hx : x.isAlpha = false) :
    c ≠ x := by
  intro he
  rw [he, hx] at h
  cases h

/-- The number rule fails when the head is neither a digit nor a dot. -/
theorem matchNumber_none {c : Char} {cs : List Char} (hcd : c.isDigit = false)
    (hdot : c ≠ '.') : matchNumber (c :: cs) = Option.none := by
  simp [matchNumber, List.takeWhile_cons, hcd, hdot]

/-- The identifier rule is the first match on an identifier-shaped input
that does not start with the `print` keyword. -/
theorem firstMatch_ident {c : Char} {cs : List Char}
    (hc : (c.isAlpha || c = '_') = true)
    (hall : ∀ x ∈ c :: cs, isIdentChar x = true)
    (hnp : printChars.isPrefixOf (c :: cs) = false) :
    firstMatch (c :: cs) = some ((c :: cs).length, Tag.identifier) := by
  have hc' : c.isAlpha = true ∨ c = '_' := by simpa using hc
  have hcd : c.isDigit = false := by
    rcases hc' with h | rfl
    · exact isAlpha_isDigit_false h
    · decide
  have hdot : c ≠ '.' := by
    rcases hc' with h | rfl
    · exact isAlpha_ne h (show ('.' : Char).isAlpha = false by decide)
    · decide
  have hp : matchPrint (c :: cs) = Option.none := by simp [matchPrint, hnp]
  have hnum : matchNumber (c :: cs) = Option.none := matchNumber_none hcd hdot
  have hid : matchIdentifier (c :: cs) = some ((c :: cs).length) := by
    have htw : (c :: cs).takeWhile isIdentChar = c :: cs :=
      List.takeWhile_eq_self_iff.mpr hall
    simp [matchIdentifier, hc, htw]
  simp [firstMatch, patterns, firstMatchAux, hp, hnum, hid]

/-- Any input beginning with the five characters of `print` lexes a
`print` token at position 0 covering exactly those characters, the rest
of the input being scanned from position 5 — the keyword rule is tried
before the identifier rule and needs no word boundary. -/
theorem tokenize_print_head (rest : List Char) :
    tokenize (printChars ++ rest) =
      match tokenizeLoopF (printChars ++ rest).length rest 5 with
      | .error e => .error e
      | .ok ts => .ok (⟨some Tag.print, 0, Value.str printChars⟩ :: ts) := by
  have hne : printChars ++ rest ≠ [] := by simp [printChars]
  have hfm : firstMatch (printChars ++ rest) = some (5, Tag.print) := by
    have hp : matchPrint (printChars ++ rest) = some 5 := by
      simp only [matchPrint]
      rw [if_pos (List.isPrefixOf_iff_prefix.mpr
        (List.prefix_append printChars rest))]
      rfl
    simp [firstMatch, patterns, firstMatchAux, hp]
  simp only [tokenize]
  rw [tokenizeLoopF_step hne hfm (by decide),
    List.drop_left' (show printChars.length = 5 from rfl),
    List.take_left' (show printChars.length = 5 from rfl)]
  simp [tokenValue]

/-- A `print` keyword followed by one identifier-shaped word that does
not itself start with `print` lexes to exactly a `print` token and one
identifier token. -/
theorem tokenize_print_identifier {c : Char} {cs : List Char}
    (hc : (c.isAlpha || c = '_') = true)
    (hall : ∀ x ∈ c :: cs, isIdentChar x = true)
    (hnp : printChars.isPrefixOf (c :: cs) = false) :
    tokenize (printChars ++ c :: cs) =
      .ok [⟨some Tag.print, 0, Value.str printChars⟩,
           ⟨some Tag.identifier, 5, Value.str (c :: cs)⟩,
           ⟨Option.none, cs.length + 6, Value.none⟩] := by
  rw [tokenize_print_head (c :: cs)]
  have hfm2 := firstMatch_ident hc hall hnp
  have hflen : (printChars ++ c :: cs).length = (cs.length + 5) + 1 := by
    simp only [printChars, List.length_append, List.length_cons,
      List.length_nil]
    omega
  rw [hflen, tokenizeLoopF_step (by simp) hfm2 (by decide),
    List.drop_length, tokenizeLoopF_nil' (by omega)]
  simp [tokenValue]
  omega

/-- C9 counterexample: `"print2"` starts with `print` followed by one
more identifier character (`2` belongs to the class `[a-zA-Z0-9_]`), yet
the remaining characters lex as a number token, not as an identifier
token. -/
theorem claim_C9_counterexample :
    tokenize ['p', 'r', 'i', 'n', 't', '2'] =
      .ok [⟨some Tag.print, 0, Value.str ['p', 'r', 'i', 'n', 't']⟩,
           ⟨some Tag.number, 5, Value.int 2⟩,
           ⟨Option.none, 6, Value.none⟩] := by decide

/-- C9 (amended): because the `print` rule is tried before the
identifier rule and needs no word boundary, every input beginning with
the five characters `print` lexes a token tagged `print` at position 0
covering exactly those characters — never one identifier token for the
whole word — with the rest scanned from position 5; when the remaining
characters form an identifier-shaped word (first character a letter or
underscore, the rest identifier characters) that does not itself begin
with `print`, they lex as one identifier token at position 5. -/
theorem claim_C9_keyword_no_boundary :
    (∀ rest : List Char,
      tokenize (printChars ++ rest) =
        match tokenizeLoopF (printChars ++ rest).length rest 5 with
        | .error e => .error e
        | .ok ts => .ok (⟨some Tag.print, 0, Value.str printChars⟩ :: ts)) ∧
    (∀ (c : Char) (cs : List Char), (c.isAlpha || c = '_') = true →
      (∀ x ∈ c :: cs, isIdentChar x = true) →
      printChars.isPrefixOf (c :: cs) = false →
      tokenize (printChars ++ c :: cs) =
        .ok [⟨some Tag.print, 0, Value.str printChars⟩,
             ⟨some Tag.identifier, 5, Value.str (c :: cs)⟩,
             ⟨Option.none, cs.length + 6, Value.none⟩]) :=
  ⟨tokenize_print_head, fun _ _ hc hall hnp =>
    tokenize_print_identifier hc hall hnp⟩

/-- Witness for C9: `"printer"` lexes as the `print` token and the
identifier `er`. -/
theorem claim_C9_keyword_no_boundary_witness :
    tokenize (printChars ++ ['e', 'r']) =
      .ok [⟨some Tag.print, 0, Value.str printChars⟩,
           ⟨some Tag.identifier, 5, Value.str ['e', 'r']⟩,
           ⟨Option.none, (['r'] : List Char).length + 6, Value.none⟩] :=
  claim_C9_keyword_no_boundary.2 'e' ['r'] (by decide) (by decide) (by decide)
